import Mathlib

/-!
Verification of the training/validation/test control loop and checkpoint
protocol of `trainer.py` (class `Trainer`), via a shallow embedding.

Modelling conventions:
- Python floats are modelled as `ℚ` (all quantities involved — accuracies,
  similarity scores — are finite ratios; the control flow only compares and
  divides them).
- Python runtime exceptions are modelled by `PyError`; fallible code returns
  `Except PyError _`.  A Python division raises `ZeroDivisionError` on a zero
  denominator, which `pyDiv` reproduces.
- Each item yielded by the validation/test dataloader is one one-shot Trial:
  the model's scores for the trial's candidates (candidate 0 is the true
  match), modelled as a `List ℚ` of the per-candidate `sigmoid` outputs.
-/

/-- Python runtime exceptions that the trainer code can raise. -/
inductive PyError where
  | nameError (n : String)
  | zeroDivisionError
  | indexError
  | fileNotFoundError
  deriving DecidableEq, Repr

/-- Python division: raises `ZeroDivisionError` on a zero denominator. -/
def pyDiv (a b : ℚ) : Except PyError ℚ :=
  if b = 0 then .error .zeroDivisionError else .ok (a / b)

/-- Helper for `argmaxIdx`: fold keeping the index of the first maximum
(`torch.max(dim)` returns the index of the first maximal value). -/
def argmaxAux (i bi : ℕ) (bv : ℚ) : List ℚ → ℕ
  | [] => bi
  | v :: vs => if bv < v then argmaxAux (i + 1) i v vs else argmaxAux (i + 1) bi bv vs

/-- Index of the (first) maximal score in a trial, as computed by
`log_probas.data.max(0)[1][0]` (trainer.py lines 115-118 and 186-189). -/
def argmaxIdx : List ℚ → ℕ
  | [] => 0
  | v :: vs => argmaxAux 1 0 v vs

/-- `pred == 0`: a trial is counted correct iff the argmax of the scores is
index 0 (trainer.py lines 118-120 and 189-191). -/
def trialCorrect (t : List ℚ) : Bool := argmaxIdx t == 0

/-- Validation inner loop, trainer.py lines 106-129.  For each trial:
update `correct`, recompute `valid_acc = correct / num_valid` (a Python
division, inside the loop), and append the row `(epoch, valid_acc)` to
`valid.csv`.  Arguments: `epoch`, `n` (= `num_valid`, the trial count of the
loader), running `correct`, current `valid_acc` (initially 0, line 105),
rows written so far, remaining trials. -/
def validLoop (epoch n : ℕ) :
    ℕ → ℚ → List (ℕ × ℚ) → List (List ℚ) → Except PyError (ℚ × ℕ × List (ℕ × ℚ))
  | correct, acc, rows, [] => .ok (acc, correct, rows)
  | correct, _acc, rows, t :: ts =>
    let c := if trialCorrect t then correct + 1 else correct
    match pyDiv (c : ℚ) (n : ℚ) with
    | .error err => .error err
    | .ok a => validLoop epoch n c a (rows ++ [(epoch, a)]) ts

/-- One validation pass (trainer.py lines 102-129): `num_valid` is the
length of the validation loader, `correct` and `valid_acc` start at 0,
no rows written yet.  Returns the final `valid_acc`, `correct`, and the
rows written to `valid.csv`. -/
def validPass (epoch : ℕ) (trials : List (List ℚ)) :
    Except PyError (ℚ × ℕ × List (ℕ × ℚ)) :=
  validLoop epoch trials.length 0 0 [] trials

/-- Test inner loop, trainer.py lines 179-192: accumulate `correct`. -/
def testLoop (correct : ℕ) : List (List ℚ) → ℕ
  | [] => correct
  | t :: ts => testLoop (if trialCorrect t then correct + 1 else correct) ts

/-- `test()` accuracy, trainer.py lines 176-194: `num_test` is the trial
count, and `test_acc = (100. * correct) / num_test` — a Python division
performed unconditionally after the loop. -/
def testPass (trials : List (List ℚ)) : Except PyError ℚ :=
  pyDiv (100 * (testLoop 0 trials : ℚ)) ((trials.length : ℕ) : ℚ)

/-! Closed forms of the validation pass, used to state and prove the claims. -/

/-- Number of correct trials. -/
def vCount (ts : List (List ℚ)) : ℕ := ts.countP trialCorrect

/-- Final validation accuracy: `correct / total` (0 when there are no
trials, since `ℚ` division by 0 is 0, matching the initial `valid_acc = 0`). -/
def vAcc (ts : List (List ℚ)) : ℚ := (vCount ts : ℚ) / (ts.length : ℚ)

/-- Closed form of the running accuracy value after the whole loop. -/
def vAccAux (n : ℕ) : ℕ → ℚ → List (List ℚ) → ℚ
  | _c, a, [] => a
  | c, _a, t :: ts =>
    let c' := if trialCorrect t then c + 1 else c
    vAccAux n c' ((c' : ℚ) / (n : ℚ)) ts

/-- Closed form of the rows written to `valid.csv` during one pass. -/
def vRowsAux (epoch n : ℕ) : ℕ → List (List ℚ) → List (ℕ × ℚ)
  | _c, [] => []
  | c, t :: ts =>
    let c' := if trialCorrect t then c + 1 else c
    (epoch, (c' : ℚ) / (n : ℚ)) :: vRowsAux epoch n c' ts

/-- Rows written to `valid.csv` by the validation pass of one epoch. -/
def vRows (epoch : ℕ) (ts : List (List ℚ)) : List (ℕ × ℚ) :=
  vRowsAux epoch ts.length 0 ts

/-!  The epoch loop of `Trainer.train` (trainer.py lines 67-157).

The per-batch training phase (lines 79-100) only updates the opaque model
and the train-loss log; the control decisions of the loop consume the
validation accuracy alone, so the model evolution is abstracted as a family
`trialsOf : ℕ → List (List ℚ)`, the per-candidate scores the current model
produces on the validation trials at each epoch.

The console/progress reports (lines 70-71, 100, 122-124, 129, 157) are
presentation only, except the epoch summary at line 159 which raises
`NameError` — that statement is modelled separately in `runEpochsFull`
below; `runEpochs` models the decision logic of lines 102-157 alone. -/

/-- The mutable loop state of `Trainer.train` (lines 59-67), together with
the externally visible effects: checkpoint save events (`saved`, each event
recording the persisted state's `epoch` field `epoch + 1` from line 149 and
the `is_best` flag from lines 146-155) and the rows written to `valid.csv`
(`validLog`; the file is opened fresh with mode `w` at line 65, so the log
starts empty). -/
structure LoopState where
  bestValidAcc : ℚ
  bestEpoch : ℕ
  counter : ℕ
  saved : List (ℕ × Bool)
  validLog : List (ℕ × ℚ)
  deriving DecidableEq, Repr

/-- Fresh start (lines 58-61, 64-67): `best_epoch = 0`, `best_valid_acc = 0`,
`counter = 0`, nothing saved, empty `valid.csv`. -/
def initState : LoopState :=
  { bestValidAcc := 0, bestEpoch := 0, counter := 0, saved := [], validLog := [] }

/-- One iteration of the epoch loop, lines 102-155: run validation, check
for improvement (lines 131-139), early-stop when `counter > patience`
(lines 142-144, returning before any checkpoint), otherwise save a
checkpoint when `is_best or epoch % 5 == 0 or epoch == epochs`
(lines 146-155).  The returned flag is `true` when the epoch executed the
early-stop `return`. -/
def epochBody (patience epochs e : ℕ) (trials : List (List ℚ)) (s : LoopState) :
    Except PyError (LoopState × Bool) :=
  match validPass e trials with
  | .error err => .error err
  | .ok (valid_acc, _correct, rows) =>
    let s₁ : LoopState := { s with validLog := s.validLog ++ rows }
    let p : Bool × LoopState :=
      if valid_acc > s₁.bestValidAcc then
        (true, { s₁ with bestValidAcc := valid_acc, bestEpoch := e, counter := 0 })
      else
        (false, { s₁ with counter := s₁.counter + 1 })
    let is_best := p.1
    let s₂ := p.2
    if s₂.counter > patience then
      .ok (s₂, true)
    else if is_best || e % 5 == 0 || e == epochs then
      .ok ({ s₂ with saved := s₂.saved ++ [(e + 1, is_best)] }, false)
    else
      .ok (s₂, false)

/-- The epoch loop over a list of epoch indices (line 76): runs `epochBody`
for each index until the list ends or an epoch early-stops.  Also counts the
epochs whose body was executed (the early-stopping epoch included, since it
runs its training and validation phases before returning). -/
def runEpochs (patience epochs : ℕ) (trialsOf : ℕ → List (List ℚ)) :
    List ℕ → LoopState → Except PyError (LoopState × ℕ × Bool)
  | [], s => .ok (s, 0, false)
  | e :: es, s =>
    match epochBody patience epochs e (trialsOf e) s with
    | .error err => .error err
    | .ok (s', true) => .ok (s', 1, true)
    | .ok (s', false) =>
      match runEpochs patience epochs trialsOf es s' with
      | .error err => .error err
      | .ok (s'', k, st) => .ok (s'', k + 1, st)

/-- The epoch indices iterated by `Trainer.train`, line 74:
`tqdm(range(0, self.config.epochs), initial=start_epoch, ...)`.  The
`initial` argument only offsets the progress-bar display; the iteration is
over `range(0, epochs)` regardless of `start_epoch`. -/
def epochIndices (start_epoch epochs : ℕ) : List ℕ := List.range epochs

/-- The `epoch` field stored by `save_checkpoint` at the end of epoch `e`
(line 149): `epoch + 1`, the next epoch to run. -/
def checkpointEpochField (e : ℕ) : ℕ := e + 1

/-- A fresh (non-resume) training run's decision logic, lines 74-157, with
the line-159 summary statement modelled separately (`runEpochsFull`). -/
def trainLoop (patience epochs : ℕ) (trialsOf : ℕ → List (List ℚ)) :
    Except PyError (LoopState × ℕ × Bool) :=
  runEpochs patience epochs trialsOf (epochIndices 0 epochs) initState

/-- The state of the run after its first `k` epoch iterations (the whole run
when `k ≥ epochs`): the loop restricted to the first `min k epochs` indices. -/
def runUpTo (patience epochs : ℕ) (trialsOf : ℕ → List (List ℚ)) (k : ℕ) :
    Except PyError (LoopState × ℕ × Bool) :=
  runEpochs patience epochs trialsOf (List.range (min k epochs)) initState

/-- Example input: validation accuracy 1 at epoch 0 (its single trial scores
the true match highest) and 0 at every later epoch (argmax index 1). -/
def exRun : ℕ → List (List ℚ) := fun e => if e = 0 then [[1, 0]] else [[0, 1]]

/-- Example input with two trials per epoch, one correct and one not. -/
def exPair : ℕ → List (List ℚ) := fun _ => [[1, 0], [0, 1]]

/-- Seven trials whose argmax is the true match (index 0). -/
def exCorrectTrials : List (List ℚ) := List.replicate 7 [1, 0]

/-- Three trials whose argmax is a distractor (index 1). -/
def exWrongTrials : List (List ℚ) := List.replicate 3 [0, 1]

/-!  The checkpoint store: `save_checkpoint` / `load_checkpoint`
(trainer.py lines 197-224). -/

/-- The filename written by `save_checkpoint` for a non-best record
(line 202): `model_ckpt_{state["epoch"]}.tar`. -/
def ckptName (epochField : ℕ) : String :=
  "model_ckpt_" ++ toString epochField ++ ".tar"

/-- Stable insert used to model Python's stable `sorted(..., key=len)`:
an element is placed after every earlier element whose length does not
exceed its own, so equal-length elements keep their original order. -/
def pyInsertByLen (x : String) : List String → List String
  | [] => [x]
  | y :: ys => if x.length ≤ y.length then x :: y :: ys else y :: pyInsertByLen x ys

/-- Python's `sorted(listing, key=len)` (line 210): a stable sort comparing
string lengths.  All stable sorts agree extensionally, so this insertion
sort reproduces `sorted` exactly.  The listing is in `glob` return order,
which Python leaves unspecified; every name shares the directory prefix, so
comparing bare filenames is equivalent to comparing the full paths. -/
def pySortByLen : List String → List String
  | [] => []
  | x :: xs => pyInsertByLen x (pySortByLen xs)

/-- Line 210: `sorted(glob(self.model_dir + '/model_ckpt_*'), key=len)[-1]`.
Indexing `[-1]` takes the last element and raises `IndexError` on an empty
list (the `glob` of an empty store). -/
def latestCkpt (listing : List String) : Except PyError String :=
  match (pySortByLen listing).getLast? with
  | none => .error .indexError
  | some p => .ok p

/-- `load_checkpoint(best)` (lines 207-224), abstracted to the path it reads:
line 210 runs unconditionally, so the non-best listing is indexed even when
`best` is true; when `best`, the path is then replaced by `best_model.tar`;
`torch.load` opens the file, raising `FileNotFoundError` when the path does
not exist (`fileExists` models the file system). -/
def load_checkpoint (best : Bool) (listing : List String) (fileExists : String → Bool) :
    Except PyError String :=
  match latestCkpt listing with
  | .error err => .error err
  | .ok p =>
    let path := if best then "best_model.tar" else p
    if fileExists path then .ok path else .error .fileNotFoundError

/-!  The line-159 epoch summary and the names visible to it.

`tqdm.write(f"[{epoch}] train loss: {train_losses.avg:.3f} - valid loss:
{log} - valid acc: {valid_acc}")` interpolates the name `log`.  Python
resolves a name against the function's local bindings, then the module's
globals, then the builtins, and raises `NameError` when all three miss. -/

/-- Every name bound in the body of `Trainer.train` (parameters and
assignment targets, lines 37-163). -/
def trainLocalNames : List String :=
  ["self", "train_loader", "valid_loader", "model", "optimizer", "criterion",
   "start_epoch", "best_epoch", "best_valid_acc", "model_state", "optim_state",
   "train_file", "valid_file", "counter", "num_train", "num_valid", "main_pbar",
   "epoch", "train_losses", "train_pbar", "i", "x1", "x2", "y", "out", "loss",
   "batch_size", "valid_pbar", "correct", "valid_acc", "log_probas", "pred",
   "is_best"]

/-- The module-level names of trainer.py (imports, lines 1-10, and the class,
line 13) together with the builtins the module uses. -/
def moduleGlobalNames : List String :=
  ["os", "glob", "torch", "optim", "tqdm", "get_train_validation_loader",
   "get_test_loader", "SiameseNet", "AverageMeter", "Trainer",
   "print", "range", "len", "enumerate", "open", "object"]

/-- Python name resolution inside `Trainer.train`. -/
def resolvesInTrain (n : String) : Bool :=
  trainLocalNames.contains n || moduleGlobalNames.contains n

/-- The names the line-159 statement evaluates, in evaluation order:
`tqdm` (for `.write`), then the f-string interpolations `epoch`,
`train_losses` (for `.avg`), `log`, `valid_acc`. -/
def summaryStmtNames : List String :=
  ["tqdm", "epoch", "train_losses", "log", "valid_acc"]

/-- Executing the line-159 summary statement: evaluation stops with
`NameError` at the first name that does not resolve. -/
def evalSummaryStmt : Except PyError Unit :=
  match summaryStmtNames.find? (fun n => !(resolvesInTrain n)) with
  | some n => .error (.nameError n)
  | none => .ok ()

/-- Outcome of a whole `train()` invocation. -/
inductive TrainOutcome where
  | finished
  | earlyStopped
  | raised (err : PyError)
  deriving DecidableEq, Repr

/-- Observable result of a `train()` invocation: final loop state, number of
epochs whose body was executed, whether the close statements at lines
162-163 were reached, and how the call ended. -/
structure TrainResult where
  state : LoopState
  epochsExecuted : ℕ
  filesClosed : Bool
  outcome : TrainOutcome
  deriving DecidableEq, Repr

/-- The epoch loop of `train()` including the line-159 summary statement:
after an epoch that neither early-stops nor raises, the summary statement
runs; only when it succeeds does the next epoch begin, and only when the
loop exhausts its indices are the log files closed (lines 162-163).  The
early-stop `return` at line 144 skips the close statements. -/
def runEpochsFull (patience epochs : ℕ) (trialsOf : ℕ → List (List ℚ)) :
    List ℕ → LoopState → TrainResult
  | [], s => ⟨s, 0, true, .finished⟩
  | e :: es, s =>
    match epochBody patience epochs e (trialsOf e) s with
    | .error err => ⟨s, 1, false, .raised err⟩
    | .ok (s', true) => ⟨s', 1, false, .earlyStopped⟩
    | .ok (s', false) =>
      match evalSummaryStmt with
      | .error err => ⟨s', 1, false, .raised err⟩
      | .ok _ =>
        let r := runEpochsFull patience epochs trialsOf es s'
        { r with epochsExecuted := r.epochsExecuted + 1 }

/-- A fresh `train()` invocation with the summary statement included. -/
def trainFull (patience epochs : ℕ) (trialsOf : ℕ → List (List ℚ)) : TrainResult :=
  runEpochsFull patience epochs trialsOf (epochIndices 0 epochs) initState

theorem testLoop_eq (c : ℕ) : ∀ ts : List (List ℚ), testLoop c ts = c + vCount ts := by
  intro ts
  induction ts generalizing c with
  | nil => simp [testLoop, vCount]
  | cons t ts ih =>
    simp only [testLoop, vCount, List.countP_cons]
    rw [ih]
    by_cases h : trialCorrect t = true <;> simp [h, vCount] <;> omega

theorem vCount_cons (t : List ℚ) (ts : List (List ℚ)) :
    vCount (t :: ts) = (if trialCorrect t then 1 else 0) + vCount ts := by
  simp only [vCount, List.countP_cons]
  by_cases h : trialCorrect t = true <;> simp [h] <;> omega

theorem validLoop_eq (epoch n : ℕ) (hn : (n : ℚ) ≠ 0) :
    ∀ (ts : List (List ℚ)) (c : ℕ) (a : ℚ) (rows : List (ℕ × ℚ)),
    validLoop epoch n c a rows ts =
      .ok (vAccAux n c a ts, c + vCount ts, rows ++ vRowsAux epoch n c ts) := by
  intro ts
  induction ts with
  | nil => intro c a rows; simp [validLoop, vAccAux, vCount, vRowsAux]
  | cons t ts ih =>
    intro c a rows
    simp only [validLoop, pyDiv, if_neg hn, vAccAux, vRowsAux]
    rw [ih]
    by_cases h : trialCorrect t = true <;> simp [h, vCount_cons] <;> omega

theorem vAccAux_ne_nil (n : ℕ) :
    ∀ (ts : List (List ℚ)) (c : ℕ) (a : ℚ), ts ≠ [] →
    vAccAux n c a ts = ((c + vCount ts : ℕ) : ℚ) / (n : ℚ) := by
  intro ts
  induction ts with
  | nil => intro c a h; exact absurd rfl h
  | cons t ts ih =>
    intro c a _
    by_cases hts : ts = []
    · subst hts
      by_cases h : trialCorrect t = true <;>
        simp [vAccAux, vCount, List.countP_cons, h]
    · simp only [vAccAux]
      rw [ih _ _ hts]
      by_cases h : trialCorrect t = true <;> simp [h, vCount_cons] <;> ring_nf <;>
        push_cast <;> ring

/-- The validation pass never raises and computes the closed forms. -/
theorem validPass_eq (epoch : ℕ) (ts : List (List ℚ)) :
    validPass epoch ts = .ok (vAcc ts, vCount ts, vRows epoch ts) := by
  by_cases hts : ts = []
  · subst hts; simp [validPass, validLoop, vAcc, vCount, vRows, vRowsAux]
  · have hn : ((ts.length : ℕ) : ℚ) ≠ 0 := by
      simpa [List.length_eq_zero] using hts
    rw [validPass, validLoop_eq _ _ hn _ 0 0 [], vAccAux_ne_nil _ _ _ _ hts]
    simp [vAcc, vRows]

/-!  Lemmas about one epoch body. -/

theorem epochBody_improve (p E e : ℕ) (ts : List (List ℚ)) (s : LoopState)
    (h : s.bestValidAcc < vAcc ts) :
    epochBody p E e ts s =
      .ok ({ bestValidAcc := vAcc ts, bestEpoch := e, counter := 0,
             saved := s.saved ++ [(e + 1, true)],
             validLog := s.validLog ++ vRows e ts }, false) := by
  simp only [epochBody, validPass_eq, gt_iff_lt]
  rw [if_pos h]
  simp

theorem epochBody_noimp_stop (p E e : ℕ) (ts : List (List ℚ)) (s : LoopState)
    (h : vAcc ts ≤ s.bestValidAcc) (hc : p < s.counter + 1) :
    epochBody p E e ts s =
      .ok ({ s with
              counter := s.counter + 1
              validLog := s.validLog ++ vRows e ts }, true) := by
  simp only [epochBody, validPass_eq, gt_iff_lt]
  rw [if_neg (not_lt.mpr h)]
  simp [hc]

theorem epochBody_noimp_cont (p E e : ℕ) (ts : List (List ℚ)) (s : LoopState)
    (h : vAcc ts ≤ s.bestValidAcc) (hc : s.counter + 1 ≤ p) :
    epochBody p E e ts s =
      (if (e % 5 == 0 || e == E : Bool) then
        .ok ({ s with
                counter := s.counter + 1
                saved := s.saved ++ [(e + 1, false)]
                validLog := s.validLog ++ vRows e ts }, false)
      else
        .ok ({ s with
                counter := s.counter + 1
                validLog := s.validLog ++ vRows e ts }, false)) := by
  simp only [epochBody, validPass_eq, gt_iff_lt]
  rw [if_neg (not_lt.mpr h)]
  simp [Nat.not_lt.mpr hc]

theorem epochBody_ok (p E e : ℕ) (ts : List (List ℚ)) (s : LoopState) :
    ∃ s' st, epochBody p E e ts s = .ok (s', st) := by
  by_cases himp : s.bestValidAcc < vAcc ts
  · exact ⟨_, _, epochBody_improve p E e ts s himp⟩
  · have hle : vAcc ts ≤ s.bestValidAcc := not_lt.mp himp
    by_cases hstop : p < s.counter + 1
    · exact ⟨_, _, epochBody_noimp_stop p E e ts s hle hstop⟩
    · rw [epochBody_noimp_cont p E e ts s hle (Nat.not_lt.mp hstop)]
      rcases Bool.eq_false_or_eq_true (e % 5 == 0 || e == E : Bool) with hck | hck
      · rw [if_pos hck]
        exact ⟨_, _, rfl⟩
      · rw [if_neg (by simp [hck])]
        exact ⟨_, _, rfl⟩

/-- What one epoch body does to the fields the invariants track: the best
accuracy never decreases, and it changes only by being recorded from the
epoch's own validation accuracy together with the epoch index; the
validation log only grows, by exactly this epoch's rows. -/
theorem epochBody_track (p E e : ℕ) (ts : List (List ℚ)) (s s' : LoopState) (st : Bool)
    (h : epochBody p E e ts s = .ok (s', st)) :
    s.bestValidAcc ≤ s'.bestValidAcc ∧
    ((s'.bestValidAcc = s.bestValidAcc ∧ s'.bestEpoch = s.bestEpoch) ∨
      (s'.bestValidAcc = vAcc ts ∧ s'.bestEpoch = e)) ∧
    s'.validLog = s.validLog ++ vRows e ts := by
  by_cases himp : s.bestValidAcc < vAcc ts
  · rw [epochBody_improve p E e ts s himp] at h
    cases h
    exact ⟨le_of_lt himp, Or.inr ⟨rfl, rfl⟩, rfl⟩
  · have hle : vAcc ts ≤ s.bestValidAcc := not_lt.mp himp
    by_cases hstop : p < s.counter + 1
    · rw [epochBody_noimp_stop p E e ts s hle hstop] at h
      cases h
      exact ⟨le_refl _, Or.inl ⟨rfl, rfl⟩, rfl⟩
    · rw [epochBody_noimp_cont p E e ts s hle (Nat.not_lt.mp hstop)] at h
      by_cases hck : (e % 5 == 0 || e == E : Bool) = true
      · rw [if_pos hck] at h
        cases h
        exact ⟨le_refl _, Or.inl ⟨rfl, rfl⟩, rfl⟩
      · rw [if_neg hck] at h
        cases h
        exact ⟨le_refl _, Or.inl ⟨rfl, rfl⟩, rfl⟩

/-!  Lemmas about the epoch loop. -/

theorem runEpochs_ok (p E : ℕ) (t : ℕ → List (List ℚ)) :
    ∀ (es : List ℕ) (s : LoopState), ∃ s' k st, runEpochs p E t es s = .ok (s', k, st) := by
  intro es
  induction es with
  | nil => intro s; exact ⟨s, 0, false, rfl⟩
  | cons e es ih =>
    intro s
    obtain ⟨s', st, hb⟩ := epochBody_ok p E e (t e) s
    cases st with
    | true => exact ⟨s', 1, true, by simp [runEpochs, hb]⟩
    | false =>
      obtain ⟨s'', k, st', hr⟩ := ih s'
      exact ⟨s'', k + 1, st', by simp [runEpochs, hb, hr]⟩

theorem runEpochs_append (p E : ℕ) (t : ℕ → List (List ℚ)) :
    ∀ (l₁ l₂ : List ℕ) (s : LoopState),
    runEpochs p E t (l₁ ++ l₂) s =
      (match runEpochs p E t l₁ s with
       | .error err => .error err
       | .ok (s₁, k₁, true) => .ok (s₁, k₁, true)
       | .ok (s₁, k₁, false) =>
         match runEpochs p E t l₂ s₁ with
         | .error err => .error err
         | .ok (s₂, k₂, st) => .ok (s₂, k₁ + k₂, st)) := by
  intro l₁
  induction l₁ with
  | nil =>
    intro l₂ s
    simp only [List.nil_append, runEpochs]
    obtain ⟨s', k, st, h⟩ := runEpochs_ok p E t l₂ s
    simp [h]
  | cons e l₁ ih =>
    intro l₂ s
    obtain ⟨s', st, hb⟩ := epochBody_ok p E e (t e) s
    obtain ⟨s₁, k₁, st₁, h₁⟩ := runEpochs_ok p E t l₁ s'
    cases st with
    | true => simp [List.cons_append, runEpochs, hb]
    | false =>
      simp only [List.cons_append, runEpochs, hb, List.append_eq]
      rw [ih l₂ s']
      simp only [h₁]
      cases st₁ with
      | true => simp
      | false =>
        obtain ⟨s₂, k₂, st₂, h₂⟩ := runEpochs_ok p E t l₂ s₁
        simp only [h₂]
        cases st₂ <;> simp <;> omega

/-- Along any run of the loop, the best accuracy never decreases and the
pair `(best_valid_acc, best_epoch)` is either still its initial value or
was recorded by some executed epoch from that epoch's validation accuracy. -/
theorem runEpochs_track (p E : ℕ) (t : ℕ → List (List ℚ)) :
    ∀ (es : List ℕ) (s s' : LoopState) (k : ℕ) (st : Bool),
    runEpochs p E t es s = .ok (s', k, st) →
    s.bestValidAcc ≤ s'.bestValidAcc ∧
    ((s'.bestValidAcc = s.bestValidAcc ∧ s'.bestEpoch = s.bestEpoch) ∨
      (s'.bestValidAcc = vAcc (t s'.bestEpoch) ∧ s'.bestEpoch ∈ es)) := by
  intro es
  induction es with
  | nil =>
    intro s s' k st h
    simp only [runEpochs] at h
    cases h
    exact ⟨le_refl _, Or.inl ⟨rfl, rfl⟩⟩
  | cons e es ih =>
    intro s s' k st h
    simp only [runEpochs] at h
    obtain ⟨s₁, st₁, hb⟩ := epochBody_ok p E e (t e) s
    simp only [hb] at h
    obtain ⟨hble, hbrec, _⟩ := epochBody_track p E e (t e) s s₁ st₁ hb
    cases st₁ with
    | true =>
      cases h
      refine ⟨hble, ?_⟩
      rcases hbrec with ⟨h₁, h₂⟩ | ⟨h₁, h₂⟩
      · exact Or.inl ⟨h₁, h₂⟩
      · exact Or.inr ⟨by rw [h₁, h₂], by rw [h₂]; exact List.mem_cons_self e es⟩
    | false =>
      obtain ⟨s₂, k₂, st₂, hr⟩ := runEpochs_ok p E t es s₁
      simp only [hr] at h
      cases h
      obtain ⟨hrle, hrrec⟩ := ih s₁ _ _ _ hr
      refine ⟨le_trans hble hrle, ?_⟩
      rcases hrrec with ⟨h₁, h₂⟩ | ⟨h₁, h₂⟩
      · rcases hbrec with ⟨h₃, h₄⟩ | ⟨h₃, h₄⟩
        · exact Or.inl ⟨h₁.trans h₃, h₂.trans h₄⟩
        · exact Or.inr ⟨by rw [h₁, h₂, h₄, h₃], by rw [h₂, h₄]; exact List.mem_cons_self e es⟩
      · exact Or.inr ⟨h₁, List.mem_cons_of_mem e h₂⟩

/-- A maximal run of non-improving epochs: starting with `counter ≤ patience`,
the loop increments the counter once per epoch and stops inside the epoch
that makes it exceed the patience, having executed exactly
`patience + 1 - counter` epoch bodies. -/
theorem runEpochs_noimprove_stops (p E : ℕ) (t : ℕ → List (List ℚ)) (b : ℚ) :
    ∀ (es : List ℕ) (s : LoopState), s.bestValidAcc = b →
    (∀ e ∈ es, vAcc (t e) ≤ b) →
    s.counter ≤ p → p < s.counter + es.length →
    ∃ s', runEpochs p E t es s = .ok (s', p + 1 - s.counter, true) ∧
      s'.counter = p + 1 ∧ s'.bestValidAcc = b := by
  intro es
  induction es with
  | nil =>
    intro s _ _ hcle hlt
    simp at hlt
    omega
  | cons e es ih =>
    intro s hsb hni hcle hlt
    have hacc : vAcc (t e) ≤ s.bestValidAcc := by
      rw [hsb]; exact hni e (List.mem_cons_self e es)
    have hlt' : p < s.counter + 1 + es.length := by
      simp only [List.length_cons] at hlt; omega
    by_cases hcp : s.counter = p
    · have hstop := epochBody_noimp_stop p E e (t e) s hacc (by omega)
      have h1 : p + 1 - s.counter = 1 := by omega
      refine ⟨{ s with counter := s.counter + 1, validLog := s.validLog ++ vRows e (t e) }, ?_, ?_, ?_⟩
      · simp only [runEpochs, hstop, h1]
      · simp [hcp]
      · simp [hsb]
    · have hc1 : s.counter + 1 ≤ p := by omega
      have hcont := epochBody_noimp_cont p E e (t e) s hacc hc1
      have hsub : p + 1 - s.counter = (p + 1 - (s.counter + 1)) + 1 := by omega
      rcases Bool.eq_false_or_eq_true (e % 5 == 0 || e == E : Bool) with hck | hck
      · rw [if_pos hck] at hcont
        obtain ⟨s', hrun, hc', hb'⟩ := ih
          ({ s with
              counter := s.counter + 1
              saved := s.saved ++ [(e + 1, false)]
              validLog := s.validLog ++ vRows e (t e) })
          (by simpa using hsb)
          (fun x hx => hni x (List.mem_cons_of_mem e hx))
          (by simpa using hc1) (by simpa using hlt')
        refine ⟨s', ?_, hc', hb'⟩
        simp only [runEpochs, hcont, hrun, hsub]
      · rw [if_neg (by simp [hck])] at hcont
        obtain ⟨s', hrun, hc', hb'⟩ := ih
          ({ s with
              counter := s.counter + 1
              validLog := s.validLog ++ vRows e (t e) })
          (by simpa using hsb)
          (fun x hx => hni x (List.mem_cons_of_mem e hx))
          (by simpa using hc1) (by simpa using hlt')
        refine ⟨s', ?_, hc', hb'⟩
        simp only [runEpochs, hcont, hrun, hsub]

/-!  Lemmas about the rows written to `valid.csv`. -/

theorem vRowsAux_length (e n : ℕ) :
    ∀ (ts : List (List ℚ)) (c : ℕ), (vRowsAux e n c ts).length = ts.length := by
  intro ts
  induction ts with
  | nil => intro c; rfl
  | cons t ts ih => intro c; simp [vRowsAux, ih]

theorem vRowsAux_fst (e n : ℕ) :
    ∀ (ts : List (List ℚ)) (c : ℕ) (r : ℕ × ℚ), r ∈ vRowsAux e n c ts → r.1 = e := by
  intro ts
  induction ts with
  | nil => intro c r hr; simp [vRowsAux] at hr
  | cons t ts ih =>
    intro c r hr
    simp only [vRowsAux, List.mem_cons] at hr
    rcases hr with hr | hr
    · rw [hr]
    · exact ih _ r hr

theorem vRowsAux_getLast (e n : ℕ) :
    ∀ (ts : List (List ℚ)) (c : ℕ), ts ≠ [] →
    (vRowsAux e n c ts).getLast? = some (e, ((c + vCount ts : ℕ) : ℚ) / (n : ℚ)) := by
  intro ts
  induction ts with
  | nil => intro c h; exact absurd rfl h
  | cons t ts ih =>
    intro c _
    by_cases hts : ts = []
    · subst hts
      by_cases h : trialCorrect t = true <;>
        simp [vRowsAux, vCount, List.countP_cons, h]
    · have ihts := ih (if trialCorrect t then c + 1 else c) hts
      have hc : c + vCount (t :: ts) = (if trialCorrect t then c + 1 else c) + vCount ts := by
        rw [vCount_cons]
        by_cases h : trialCorrect t = true <;> simp [h] <;> omega
      have hcons : vRowsAux e n c (t :: ts) =
          (e, ((if trialCorrect t then c + 1 else c : ℕ) : ℚ) / (n : ℚ)) ::
            vRowsAux e n (if trialCorrect t then c + 1 else c) ts := rfl
      rw [hcons]
      cases hl : vRowsAux e n (if trialCorrect t then c + 1 else c) ts with
      | nil => rw [hl] at ihts; simp at ihts
      | cons x xs =>
        rw [List.getLast?_cons_cons, ← hl, ihts, hc]


/-!  Lemmas about the checkpoint store. -/

theorem pyInsertByLen_ne_nil (x : String) : ∀ l : List String, pyInsertByLen x l ≠ [] := by
  intro l
  cases l with
  | nil => simp [pyInsertByLen]
  | cons y ys =>
    simp only [pyInsertByLen]
    by_cases h : x.length ≤ y.length <;> simp [h]

theorem pySortByLen_ne_nil (l : List String) (h : l ≠ []) : pySortByLen l ≠ [] := by
  cases l with
  | nil => exact absurd rfl h
  | cons x xs => exact pyInsertByLen_ne_nil x (pySortByLen xs)

theorem latestCkpt_ok (l : List String) (h : l ≠ []) : ∃ p, latestCkpt l = .ok p := by
  have hs := pySortByLen_ne_nil l h
  rcases hg : (pySortByLen l).getLast? with _ | p
  · exact absurd (List.getLast?_eq_none_iff.mp hg) hs
  · exact ⟨p, by rw [latestCkpt, hg]⟩

/-!  The claims. -/

/-- Claim C1: in the evaluation pass each trial gets exactly one verdict
(one row, one count update), the verdict is correct iff the argmax of the
trial's scores is index 0, the reported accuracy is exactly
`correct / total_trials` (for `test()`, `100 * correct / total`), and the
accuracy is invariant under reordering of the trials. -/
theorem evaluation_verdicts_and_accuracy (e : ℕ) (ts ts' : List (List ℚ))
    (hp : ts.Perm ts') :
    validPass e ts = .ok ((vCount ts : ℚ) / (ts.length : ℚ), vCount ts, vRows e ts) ∧
    (vRows e ts).length = ts.length ∧
    (ts ≠ [] → testPass ts = .ok (100 * (vCount ts : ℚ) / (ts.length : ℚ))) ∧
    (vCount ts' : ℚ) / (ts'.length : ℚ) = (vCount ts : ℚ) / (ts.length : ℚ) := by
  refine ⟨?_, ?_, ?_, ?_⟩
  · simpa [vAcc] using validPass_eq e ts
  · exact vRowsAux_length e ts.length ts 0
  · intro h
    have hn : ((ts.length : ℕ) : ℚ) ≠ 0 := by
      simpa [List.length_eq_zero] using h
    rw [testPass, testLoop_eq, pyDiv, if_neg hn]
    norm_num
  · have h1 : vCount ts' = vCount ts := by
      rw [vCount, vCount, hp.countP_eq trialCorrect]
    have h2 : ts'.length = ts.length := hp.length_eq.symm
    rw [h1, h2]

/-- Witness for C1 at a concrete 10-trial set with 7 correct predictions:
the run reports accuracy 7/10, and reordering the trials is a permutation. -/
theorem evaluation_verdicts_and_accuracy_witness :
    (exCorrectTrials ++ exWrongTrials).Perm (exWrongTrials ++ exCorrectTrials) ∧
    validPass 0 (exCorrectTrials ++ exWrongTrials) =
      .ok ((vCount (exCorrectTrials ++ exWrongTrials) : ℚ) /
          ((exCorrectTrials ++ exWrongTrials).length : ℚ),
        vCount (exCorrectTrials ++ exWrongTrials),
        vRows 0 (exCorrectTrials ++ exWrongTrials)) ∧
    (vCount (exCorrectTrials ++ exWrongTrials) : ℚ) /
        ((exCorrectTrials ++ exWrongTrials).length : ℚ) = 7 / 10 := by
  refine ⟨List.perm_append_comm,
    (evaluation_verdicts_and_accuracy 0 _ _ List.perm_append_comm).1, ?_⟩
  norm_num [exCorrectTrials, exWrongTrials, vCount, trialCorrect, argmaxIdx, argmaxAux,
    List.replicate_succ]

/-- Claim C2 (code bug): `load_checkpoint(best=False)` takes the last element
of the listing stably sorted by filename LENGTH (`sorted(..., key=len)` at
line 210), not by parsed numeric epoch.  On the claim's own example (epochs
3, 1, 10, 2) it does return epoch 10 — its name is the only two-digit one —
but with records for epochs 9 and 8 (equal-length names) listed in that glob
order it returns epoch 8, not the numerically greatest epoch 9. -/
theorem load_latest_picks_by_filename_length :
    load_checkpoint false [ckptName 3, ckptName 1, ckptName 10, ckptName 2]
        (fun _ => true) = .ok (ckptName 10) ∧
    load_checkpoint false [ckptName 9, ckptName 8] (fun _ => true) = .ok (ckptName 8) ∧
    ckptName 8 ≠ ckptName 9 := by
  refine ⟨rfl, rfl, ?_⟩
  decide

/-- Claim C6 counterexample: with zero test trials, `test()` raises
`ZeroDivisionError` from `(100. * correct) / num_test` instead of reporting
accuracy 0 without an exception. -/
theorem test_zero_trials_raises :
    testPass [] = .error PyError.zeroDivisionError ∧ testPass [] ≠ .ok 0 := by
  refine ⟨rfl, ?_⟩
  intro h
  have h' : (Except.error PyError.zeroDivisionError : Except PyError ℚ) = .ok 0 :=
    (rfl : testPass [] = .error PyError.zeroDivisionError).symm.trans h
  exact Except.noConfusion h'

/-- Claim C6 as amended: with zero trials the per-epoch validation pass
reports accuracy 0 without raising and performs no division (the division
sits inside the per-trial loop, which never runs), but `test()` raises
`ZeroDivisionError` when computing the final percentage. -/
theorem zero_trials_validation_ok_test_raises (e : ℕ) :
    validPass e [] = .ok (0, 0, []) ∧
    testPass [] = .error PyError.zeroDivisionError :=
  ⟨rfl, rfl⟩

/-- Claim C7 counterexample: with no checkpoint records at all,
`load_checkpoint` raises `IndexError` (indexing `[-1]` into the empty sorted
listing), which is a generic exception, not a distinct not-found error. -/
theorem load_empty_raises_indexerror :
    load_checkpoint false [] (fun _ => false) = .error PyError.indexError ∧
    PyError.indexError ≠ PyError.fileNotFoundError := by
  refine ⟨rfl, ?_⟩
  decide

/-- Claim C7 as amended: when no non-best records exist, `load_checkpoint`
fails with `IndexError` for BOTH `best` modes, because line 210 indexes the
non-best listing unconditionally; a missing `best_model.tar` with non-best
records present surfaces as the file open's `FileNotFoundError`.  No
distinct `NotFoundError` is raised. -/
theorem load_missing_records_errors (b : Bool) (f : String → Bool) (l : List String)
    (hl : l ≠ []) (hf : f ("best_model.tar") = false) :
    load_checkpoint b [] f = .error PyError.indexError ∧
    load_checkpoint true l f = .error PyError.fileNotFoundError := by
  constructor
  · rfl
  · obtain ⟨p, hp⟩ := latestCkpt_ok l hl
    simp only [load_checkpoint, hp]
    simp [hf]

/-- Witness for the amended C7 at a store holding only the epoch-1 record. -/
theorem load_missing_records_errors_witness :
    load_checkpoint false [] (fun _ => false) = .error PyError.indexError ∧
    load_checkpoint true [ckptName 1] (fun _ => false) =
      .error PyError.fileNotFoundError :=
  load_missing_records_errors false (fun _ => false) [ckptName 1] (by simp) rfl

/-- Claim C8 (code bug): a checkpoint saved at the end of epoch `e` stores
`epoch + 1` — the next epoch to run — but `train()` iterates
`range(0, epochs)` regardless of the restored `start_epoch` (which only
offsets the tqdm display), so resuming with `start_epoch = 3` and
`epochs = 5` reruns epochs 0..4 instead of continuing from epoch 3. -/
theorem resume_restarts_epoch_iteration :
    epochIndices 3 5 = [0, 1, 2, 3, 4] ∧
    epochIndices 3 5 ≠ [3, 4] ∧
    checkpointEpochField 2 = 3 := by
  refine ⟨rfl, ?_, rfl⟩
  decide

/-- Claim C3 counterexample: with `train_patience = 3` and validation
accuracy that improves at epoch 0 (accuracy 1) and never afterwards
(accuracy 0), the run executes FIVE epoch bodies before the early-stop
return fires (`counter > patience` first holds at the fourth non-improving
epoch), not the claimed four. -/
theorem patience_three_fifth_epoch_cex :
    trainLoop 3 10 exRun =
      .ok (⟨1, 0, 4, [(1, true)], [(0, 1), (1, 0), (2, 0), (3, 0), (4, 0)]⟩, 5, true) ∧
    (5 : ℕ) ≠ 4 := by
  constructor
  · have h : List.range 10 = [0, 1, 2, 3, 4, 5, 6, 7, 8, 9] := rfl
    norm_num [trainLoop, runEpochs, epochBody, validPass_eq, epochIndices, initState, exRun,
      h, vAcc, vCount, vRows, vRowsAux, trialCorrect, argmaxIdx, argmaxAux]
  · decide

/-- Claim C3 as amended: with `train_patience = 3` and a validation accuracy
sequence that improves at epoch 0 and never improves afterwards, training
stops after exactly 5 epochs total (epoch 0 plus 4 non-improving epochs):
the loop returns as soon as the count of consecutive non-improving epochs
EXCEEDS the patience, which with patience 3 first happens when the counter
reaches 4. -/
theorem early_stop_after_five_epochs (E : ℕ) (t : ℕ → List (List ℚ))
    (hE : 5 ≤ E) (h0 : 0 < vAcc (t 0))
    (hni : ∀ i, 1 ≤ i → vAcc (t i) ≤ vAcc (t 0)) :
    ∃ s : LoopState, trainLoop 3 E t = .ok (s, 5, true) ∧ s.counter = 4 := by
  have hE1 : E = 1 + (E - 1) := by omega
  have hr : List.range E = [0] ++ (List.range (E - 1)).map (1 + ·) := by
    conv_lhs => rw [hE1]
    rw [List.range_add]
    rfl
  have h0' : initState.bestValidAcc < vAcc (t 0) := by simpa [initState] using h0
  have e0 := epochBody_improve 3 E 0 (t 0) initState h0'
  have hrun0 : runEpochs 3 E t [0] initState =
      .ok ({ bestValidAcc := vAcc (t 0), bestEpoch := 0, counter := 0,
             saved := [(1, true)], validLog := vRows 0 (t 0) }, 1, false) := by
    simp only [runEpochs, e0]
    simp [initState]
  obtain ⟨s', hrun, hc', _⟩ := runEpochs_noimprove_stops 3 E t (vAcc (t 0))
    ((List.range (E - 1)).map (1 + ·))
    ({ bestValidAcc := vAcc (t 0), bestEpoch := 0, counter := 0,
       saved := [(1, true)], validLog := vRows 0 (t 0) })
    rfl
    (by
      intro x hx
      rcases List.mem_map.mp hx with ⟨i, _, rfl⟩
      exact hni (1 + i) (by omega))
    (by simp)
    (by simp only [List.length_map, List.length_range]; simp; omega)
  refine ⟨s', ?_, by simpa using hc'⟩
  rw [trainLoop, epochIndices, hr, runEpochs_append]
  simp only [hrun0, hrun]

/-- Witness for the amended C3: the concrete run of
`patience_three_fifth_epoch_cex`'s input satisfies the amended claim. -/
theorem early_stop_after_five_epochs_witness :
    ∃ s : LoopState, trainLoop 3 10 exRun = .ok (s, 5, true) ∧ s.counter = 4 :=
  early_stop_after_five_epochs 10 exRun (by norm_num)
    (by norm_num [vAcc, vCount, exRun, trialCorrect, argmaxIdx, argmaxAux])
    (fun i hi => by
      have hne : i ≠ 0 := by omega
      norm_num [vAcc, vCount, exRun, hne, trialCorrect, argmaxIdx, argmaxAux])

/-- Claim C4 (code bug): the checkpoint condition at line 146 compares
`epoch == self.config.epochs`, but the loop runs epochs `0..epochs-1`, so
the final-epoch clause never fires: with `epochs = 12` and a run whose only
best epoch is 0 (patience 100, so no early stop), checkpoints are saved only
at epochs 0 (best), 5 and 10 (`epoch % 5 == 0`); the final epoch 11 — whose
record would carry epoch field `checkpointEpochField 11 = 12` — is NOT
checkpointed, contradicting the claim that the final epoch of the budget
always produces a checkpoint. -/
theorem final_epoch_not_checkpointed :
    trainLoop 100 12 exRun =
      .ok (⟨1, 0, 11, [(1, true), (6, false), (11, false)],
        [(0, 1), (1, 0), (2, 0), (3, 0), (4, 0), (5, 0), (6, 0), (7, 0), (8, 0),
         (9, 0), (10, 0), (11, 0)]⟩, 12, false) ∧
    (∀ r ∈ [((1 : ℕ), true), (6, false), (11, false)], r.1 ≠ checkpointEpochField 11) := by
  constructor
  · have h : List.range 12 = [0, 1, 2, 3, 4, 5, 6, 7, 8, 9, 10, 11] := rfl
    norm_num [trainLoop, runEpochs, epochBody, validPass_eq, epochIndices, initState, exRun,
      h, vAcc, vCount, vRows, vRowsAux, trialCorrect, argmaxIdx, argmaxAux]
  · decide

/-- Claim C5: the line-159 epoch summary interpolates the name `log`, which
is bound nowhere in `train()`, the module or the builtins, so whenever the
summary statement executes it raises `NameError`; consequently for any
configuration with at least one epoch, `train()` executes exactly one epoch
body, never reaches a second epoch, and never reaches the statements that
close the log files — the call ends either in the `NameError` (whenever
epoch 0 does not early-stop) or in the epoch-0 early-stop return. -/
theorem train_summary_raises_nameerror (p E : ℕ) (t : ℕ → List (List ℚ)) (hE : 1 ≤ E) :
    evalSummaryStmt = .error (.nameError ("log")) ∧
    (trainFull p E t).epochsExecuted = 1 ∧
    (trainFull p E t).filesClosed = false ∧
    ((trainFull p E t).outcome = .raised (.nameError ("log")) ∨
      (trainFull p E t).outcome = .earlyStopped) ∧
    (∀ s', epochBody p E 0 (t 0) initState = .ok (s', false) →
      (trainFull p E t).outcome = .raised (.nameError ("log"))) := by
  obtain ⟨k, rfl⟩ : ∃ k, E = k + 1 := ⟨E - 1, by omega⟩
  have hr : epochIndices 0 (k + 1) = 0 :: (List.range k).map Nat.succ := by
    rw [epochIndices, List.range_succ_eq_map]
  obtain ⟨s', st, hb⟩ := epochBody_ok p (k + 1) 0 (t 0) initState
  have hes : evalSummaryStmt = .error (.nameError ("log")) := rfl
  cases st with
  | true =>
    have htf : trainFull p (k + 1) t = ⟨s', 1, false, .earlyStopped⟩ := by
      rw [trainFull, hr]
      simp [runEpochsFull, hb]
    refine ⟨rfl, by rw [htf], by rw [htf], Or.inr (by rw [htf]), ?_⟩
    intro s'' h''
    rw [hb] at h''
    simp at h''
  | false =>
    have htf : trainFull p (k + 1) t = ⟨s', 1, false, .raised (.nameError ("log"))⟩ := by
      rw [trainFull, hr]
      simp [runEpochsFull, hb, hes]
    exact ⟨rfl, by rw [htf], by rw [htf], Or.inl (by rw [htf]), fun s'' h'' => by rw [htf]⟩

/-- Witness for C5 at a concrete configuration (patience 10, 3 epochs, two
validation trials per epoch). -/
theorem train_summary_raises_nameerror_witness :
    evalSummaryStmt = .error (.nameError ("log")) ∧
    (trainFull 10 3 exPair).epochsExecuted = 1 ∧
    (trainFull 10 3 exPair).filesClosed = false := by
  have h := train_summary_raises_nameerror 10 3 exPair (by norm_num)
  exact ⟨h.1, h.2.1, h.2.2.1⟩

/-- Claim C9: along a training run the tracked best validation accuracy is
monotonically non-decreasing (comparing the state after any `k₁` epoch
iterations with the state after any later `k₂`), and the tracked pair is
either still its zero-initialised starting value or equals the validation
accuracy recorded at the tracked best epoch, an epoch the run executed. -/
theorem best_accuracy_monotone_and_recorded (p E : ℕ) (t : ℕ → List (List ℚ))
    (k₁ k₂ : ℕ) (hk : k₁ ≤ k₂) (s₁ s₂ : LoopState) (n₁ n₂ : ℕ) (b₁ b₂ : Bool)
    (h₁ : runUpTo p E t k₁ = .ok (s₁, n₁, b₁))
    (h₂ : runUpTo p E t k₂ = .ok (s₂, n₂, b₂)) :
    s₁.bestValidAcc ≤ s₂.bestValidAcc ∧
    ((s₂.bestValidAcc = 0 ∧ s₂.bestEpoch = 0) ∨
      (s₂.bestValidAcc = vAcc (t s₂.bestEpoch) ∧ s₂.bestEpoch < E)) := by
  obtain ⟨d, hd⟩ : ∃ d, min k₂ E = min k₁ E + d := ⟨min k₂ E - min k₁ E, by omega⟩
  rw [runUpTo] at h₁ h₂
  rw [hd, List.range_add, runEpochs_append] at h₂
  have hinv₁ := runEpochs_track p E t (List.range (min k₁ E)) initState s₁ n₁ b₁ h₁
  have hminE : min k₁ E ≤ E := Nat.min_le_right k₁ E
  cases b₁ with
  | true =>
    rw [h₁] at h₂
    simp only [Except.ok.injEq, Prod.mk.injEq] at h₂
    obtain ⟨hs, -, -⟩ := h₂
    subst hs
    refine ⟨le_refl _, ?_⟩
    rcases hinv₁.2 with ⟨hb', he'⟩ | ⟨hb', he'⟩
    · exact Or.inl ⟨by rw [hb']; rfl, by rw [he']; rfl⟩
    · have := List.mem_range.mp he'
      exact Or.inr ⟨hb', by omega⟩
  | false =>
    rw [h₁] at h₂
    obtain ⟨s₃, k₃, st₃, hr₃⟩ := runEpochs_ok p E t ((List.range d).map (min k₁ E + ·)) s₁
    simp only [hr₃] at h₂
    simp only [Except.ok.injEq, Prod.mk.injEq] at h₂
    obtain ⟨hs, -, -⟩ := h₂
    subst hs
    have htr := runEpochs_track p E t ((List.range d).map (min k₁ E + ·)) s₁ s₃ k₃ st₃ hr₃
    refine ⟨htr.1, ?_⟩
    rcases htr.2 with ⟨hb, he⟩ | ⟨hb, he⟩
    · rcases hinv₁.2 with ⟨hb', he'⟩ | ⟨hb', he'⟩
      · exact Or.inl ⟨by rw [hb, hb']; rfl, by rw [he, he']; rfl⟩
      · have := List.mem_range.mp he'
        exact Or.inr ⟨by rw [hb, he]; exact hb', by omega⟩
    · refine Or.inr ⟨hb, ?_⟩
      rcases List.mem_map.mp he with ⟨i, hi, hie⟩
      have hid := List.mem_range.mp hi
      omega

/-- Witness for C9: comparing the state after 2 epoch iterations with the
state after 4, on the run whose accuracy is 1 at epoch 0 and 0 afterwards. -/
theorem best_accuracy_monotone_witness :
    (LoopState.mk 1 0 1 [(1, true)] [(0, 1), (1, 0)]).bestValidAcc ≤
      (LoopState.mk 1 0 3 [(1, true)] [(0, 1), (1, 0), (2, 0), (3, 0)]).bestValidAcc ∧
    (((LoopState.mk 1 0 3 [(1, true)] [(0, 1), (1, 0), (2, 0), (3, 0)]).bestValidAcc = 0 ∧
        (LoopState.mk 1 0 3 [(1, true)] [(0, 1), (1, 0), (2, 0), (3, 0)]).bestEpoch = 0) ∨
      ((LoopState.mk 1 0 3 [(1, true)] [(0, 1), (1, 0), (2, 0), (3, 0)]).bestValidAcc =
          vAcc (exRun (LoopState.mk 1 0 3 [(1, true)]
            [(0, 1), (1, 0), (2, 0), (3, 0)]).bestEpoch) ∧
        (LoopState.mk 1 0 3 [(1, true)] [(0, 1), (1, 0), (2, 0), (3, 0)]).bestEpoch < 10)) :=
  best_accuracy_monotone_and_recorded 3 10 exRun 2 4 (by norm_num)
    (LoopState.mk 1 0 1 [(1, true)] [(0, 1), (1, 0)])
    (LoopState.mk 1 0 3 [(1, true)] [(0, 1), (1, 0), (2, 0), (3, 0)])
    2 4 false false
    (by
      have hm : List.range (min 2 10) = [0, 1] := rfl
      norm_num [runUpTo, hm, runEpochs, epochBody, validPass_eq, initState, exRun,
        vAcc, vCount, vRows, vRowsAux, trialCorrect, argmaxIdx, argmaxAux])
    (by
      have hm : List.range (min 4 10) = [0, 1, 2, 3] := rfl
      norm_num [runUpTo, hm, runEpochs, epochBody, validPass_eq, initState, exRun,
        vAcc, vCount, vRows, vRowsAux, trialCorrect, argmaxIdx, argmaxAux])

/-- Claim C10 counterexample: one completed epoch with TWO validation trials
appends TWO rows to `valid.csv` (the write sits inside the per-trial loop),
not exactly one row per epoch. -/
theorem valid_log_two_rows_cex :
    trainLoop 10 1 exPair =
      .ok (⟨1/2, 0, 0, [(1, true)], [(0, 1/2), (0, 1/2)]⟩, 1, false) ∧
    [((0 : ℕ), (1 : ℚ)/2), (0, 1/2)].length ≠ 1 := by
  constructor
  · have h : List.range 1 = [0] := rfl
    norm_num [trainLoop, runEpochs, epochBody, validPass_eq, epochIndices, initState, exPair,
      h, vAcc, vCount, vRows, vRowsAux, trialCorrect, argmaxIdx, argmaxAux]
  · norm_num

/-- Claim C10 as amended: for every completed epoch with `n` validation
trials, exactly `n` rows `(epoch, running_accuracy)` — one per trial — are
appended to `valid.csv`, every row is tagged with that epoch, and the LAST
row carries the epoch's final validation accuracy; within a run the log only
ever grows by appending (rows already written are never changed). -/
theorem valid_log_rows_per_trial (p E e : ℕ) (ts : List (List ℚ)) (s s' : LoopState)
    (st : Bool) (h : epochBody p E e ts s = .ok (s', st)) :
    s'.validLog = s.validLog ++ vRows e ts ∧
    (vRows e ts).length = ts.length ∧
    (∀ r ∈ vRows e ts, r.1 = e) ∧
    (ts ≠ [] → (vRows e ts).getLast? = some (e, vAcc ts)) := by
  refine ⟨(epochBody_track p E e ts s s' st h).2.2, vRowsAux_length e ts.length ts 0,
    fun r hr => vRowsAux_fst e ts.length ts 0 r hr, fun hne => ?_⟩
  rw [vRows, vRowsAux_getLast e ts.length ts 0 hne]
  simp [vAcc]

/-- Witness for the amended C10 at the concrete epoch of
`valid_log_two_rows_cex`: two trials produce two appended rows. -/
theorem valid_log_rows_per_trial_witness :
    (LoopState.mk (1/2) 0 0 [(1, true)] [(0, 1/2), (0, 1/2)]).validLog =
      initState.validLog ++ vRows 0 [[1, 0], [0, 1]] ∧
    (vRows 0 [[(1 : ℚ), 0], [0, 1]]).length = [[(1 : ℚ), 0], [0, 1]].length := by
  have h := valid_log_rows_per_trial 10 1 0 [[1, 0], [0, 1]] initState
    (LoopState.mk (1/2) 0 0 [(1, true)] [(0, 1/2), (0, 1/2)]) false
    (by norm_num [epochBody, validPass_eq, initState, vAcc, vCount, vRows, vRowsAux,
      trialCorrect, argmaxIdx, argmaxAux])
  exact ⟨h.1, h.2.1⟩
